import Mathlib

/-!
Sleep-stage bar chart preprocessing (`BarChart/preproc.js`)

A shallow embedding of the data-shaping helpers of the bar chart and the
properties they satisfy.

Modelling conventions.
* A `Date` is the integer number of milliseconds it denotes.
* A sleep stage is an integer (`sleep_stage` after `convertSource`).
* Stage labels are strings; `undefined` is `none`.
* A JavaScript number produced by the arithmetic of this file is a `JsNum`:
  exact rationals stand for the finite doubles (no rounding), together with
  the non-finite values that division by zero and `undefined + 1` produce.
* A `TypeError` (reading a property of `undefined`) is `none`.
-/

namespace Polydodo

/-! ## JavaScript values -/

/-- Numbers as the arithmetic of `preproc.js` produces them. -/
inductive JsNum where
  | num (q : ℚ)
  | posInf
  | negInf
  | nan
  deriving DecidableEq

namespace JsNum

/-- The value of `x + 1`, as computed by `++x` and `x++`. -/
def incr : JsNum → JsNum
  | num q => num (q + 1)
  | posInf => posInf
  | negInf => negInf
  | nan => nan

/-- The value of `x / d` where `d` is a non-negative integer (a length, or a
length minus one, of a non-empty array). -/
def divNat : JsNum → Nat → JsNum
  | num q, d =>
    if d = 0 then (if q = 0 then nan else if 0 < q then posInf else negInf)
    else num (q / (d : ℚ))
  | posInf, _ => posInf
  | negInf, _ => negInf
  | nan, _ => nan

/-- The value of `x * 100`. -/
def mul100 : JsNum → JsNum
  | num q => num (q * 100)
  | posInf => posInf
  | negInf => negInf
  | nan => nan

end JsNum

/-- Array read `xs[k]` for a number `k` holding an integer: `undefined`
(`none`) outside `0 .. xs.length - 1`. -/
def jsGet {α : Type} (xs : List α) (k : Int) : Option α :=
  if k < 0 then none else xs[k.toNat]?

/-- The call `xs.indexOf(x)` on an array of strings: position of the first
element strictly equal to `x`, and `-1` when there is none (always the case
for `undefined`). -/
def jsIndexOf (xs : List String) (x : Option String) : Int :=
  match x with
  | none => -1
  | some s => if s ∈ xs then (xs.indexOf s : Int) else -1

/-- The call `xs.forEach((x, i) => ...)` as a state transformer: `f` is the
callback acting on the variables it closes over, `i` the index of the head. -/
def forEachIdx {σ α : Type} (f : σ → α → Nat → σ) : List α → Nat → σ → σ
  | [], _, st => st
  | x :: xs, i, st => forEachIdx f xs (i + 1) (f st x i)

/-! ## Data model -/

/-- A row of the series after `convertSource`. -/
structure Row where
  timestamp : Int
  sleep_stage : Int
  deriving DecidableEq

/-- An element of the array returned by `createBarSources`. -/
structure Run where
  stageText : Option String
  stage : Int
  stagePortion : JsNum
  currentStageDebut : Int
  currentStageEnd : Int
  deriving DecidableEq

/-! ## `createBarSources` -/

/-- The variables of `createBarSources` that its loop updates. -/
structure BarState where
  sources : List Run
  currentStageDebut : Int
  currentStage : Int
  stagePortion : Nat

/-- The object pushed onto `sources` when the loop closes a run at `row`;
`stagePortion` is the counter after its increment. -/
def mkRun (states statesOrder : List String) (totalTimestamps : Nat)
    (currentStageDebut currentStage : Int) (stagePortion : Nat) (row : Row) : Run :=
  { stageText := jsGet states currentStage
    stage := jsIndexOf statesOrder (jsGet states currentStage)
    stagePortion := ((JsNum.num (stagePortion : ℚ)).divNat totalTimestamps).mul100
    currentStageDebut := currentStageDebut
    currentStageEnd := row.timestamp }

/-- The values of the variables when the loop of `createBarSources` starts;
`row0` is `data[0]`. -/
def barInit (row0 : Row) : BarState :=
  { sources := []
    currentStageDebut := row0.timestamp
    currentStage := 0
    stagePortion := 0 }

/-- The body of the `forEach` callback of `createBarSources`; `len` is
`data.length`. -/
def barStep (states statesOrder : List String) (len : Nat)
    (st : BarState) (row : Row) (i : Nat) : BarState :=
  let stagePortion := st.stagePortion + 1
  if row.sleep_stage ≠ st.currentStage ∨ i = len - 1 then
    { sources := st.sources ++
        [mkRun states statesOrder (len - 1) st.currentStageDebut st.currentStage
          stagePortion row]
      currentStageDebut := row.timestamp
      currentStage := row.sleep_stage
      stagePortion := 0 }
  else
    { st with stagePortion := stagePortion }

/-- The function `createBarSources(data, states, statesOrder)`. On the empty
array `data[0].timestamp` throws, which is `none`. -/
def createBarSources (data : List Row) (states statesOrder : List String) :
    Option (List Run) :=
  match data with
  | [] => none
  | row0 :: _ =>
    some (forEachIdx (barStep states statesOrder data.length) data 0 (barInit row0)).sources

/-! ## `calculateStagesPortion` -/

/-- The statement `++a[k]` on an array of numbers with possibly empty slots
(`none`). A negative `k` names an ordinary property, not an element; a `k`
past the end lengthens the array, leaving empty slots in between; reading an
empty or missing slot gives `undefined`, whose increment is `NaN`. -/
def incrementAt (a : List (Option JsNum)) (k : Int) : List (Option JsNum) :=
  if k < 0 then a
  else if k.toNat < a.length then
    a.set k.toNat (some (match a[k.toNat]? with
      | some (some v) => v.incr
      | _ => JsNum.nan))
  else a ++ List.replicate (k.toNat - a.length) none ++ [some JsNum.nan]

/-- The display-order slot that `calculateStagesPortion` increments for a
row: `statesOrder.indexOf(states[row.sleep_stage])`. -/
def stageSlot (states statesOrder : List String) (row : Row) : Int :=
  jsIndexOf statesOrder (jsGet states row.sleep_stage)

/-- The function `calculateStagesPortion(data, states, statesOrder)`: the
second `forEach` visits the non-empty slots and divides each by
`data.length`. -/
def calculateStagesPortion (data : List Row) (states statesOrder : List String) :
    List (Option JsNum) :=
  let zero : Option JsNum := some (JsNum.num 0)
  let counts :=
    data.foldl (fun a row => incrementAt a (stageSlot states statesOrder row))
      [zero, zero, zero, zero, zero]
  counts.map (fun cell => cell.map (fun v => v.divNat data.length))

/-! ## `findFirstStageIndex` -/

/-- The search of `xs.findIndex(p)` from position `i` on: the index of the
first element satisfying `p`, and `-1` when there is none. -/
def jsFindIndexFrom {α : Type} (p : α → Bool) : List α → Nat → Int
  | [], _ => -1
  | x :: xs, i => if p x then (i : Int) else jsFindIndexFrom p xs (i + 1)

/-- The call `xs.findIndex(p)`. -/
def jsFindIndex {α : Type} (p : α → Bool) (xs : List α) : Int :=
  jsFindIndexFrom p xs 0

/-- The function `findFirstStageIndex(states)`, whose argument is the array of
runs: the loop `for (stage = 0; stage < 5; stage++)` pushes one
`states.findIndex(element => element.stage === stage)` per pass. -/
def findFirstStageIndex (states : List Run) : List Int :=
  (List.range 5).foldl
    (fun firstIndexes stage =>
      firstIndexes ++
        [jsFindIndex (fun element : Run => decide (element.stage = (stage : Int))) states])
    []

/-! ## `convertSource` -/

/-- The part of a d3 scale that `barDomainX` sets: its domain. -/
structure Scale where
  domain : List Int
  deriving DecidableEq

/-- The function `barDomainX(xFocus, data)`, as the scale after the call. The
argument `[data[0].timestamp, data[data.length-1].timestamp]` is evaluated
first; reading `timestamp` of `undefined` throws, which is `none`. -/
def barDomainX (xFocus : Scale) (data : List Row) : Option Scale :=
  match jsGet data 0 with
  | none => none
  | some first =>
    match jsGet data ((data.length : Int) - 1) with
    | none => none
    | some last => some { xFocus with domain := [first.timestamp, last.timestamp] }

/-! ## `AlternatingTextImage` -/

/-- An entry of the `elements` property. -/
structure TextImage where
  title : String
  text : String
  image : String
  deriving DecidableEq

/-- What a column holds: `textElement` (the title and the text) or
`imageElement` (an image with its `src` and `alt`). -/
inductive ColContent where
  | textElement (title text : String)
  | imageElement (src alt : String)
  deriving DecidableEq

/-- A `Col` with its `xs` width. -/
structure Col where
  xs : String
  content : ColContent
  deriving DecidableEq

/-- The `div` rendered for one entry: its key, its class and the columns of
its single row, from left to right. -/
structure Block where
  key : Nat
  className : String
  cols : List Col
  deriving DecidableEq

/-- The call `xs.map((x, i) => ...)` from index `i` on. -/
def jsMapIdxFrom {α β : Type} (f : α → Nat → β) : List α → Nat → List β
  | [], _ => []
  | x :: xs, i => f x i :: jsMapIdxFrom f xs (i + 1)

/-- The block that `AlternatingTextImage` renders for the entry at index `i`;
`publicUrl` is the text of `process.env.PUBLIC_URL`. -/
def renderBlock (publicUrl : String) (entry : TextImage) (i : Nat) : Block :=
  let textElement := ColContent.textElement entry.title entry.text
  let imageElement := ColContent.imageElement (publicUrl ++ "/" ++ entry.image) entry.title
  { key := i
    className := "pt-lg-5"
    cols :=
      if i % 2 = 0 then [⟨"8", textElement⟩, ⟨"4", imageElement⟩]
      else [⟨"4", imageElement⟩, ⟨"8", textElement⟩] }

/-- The component `AlternatingTextImage({ elements })`. -/
def AlternatingTextImage (publicUrl : String) (elements : List TextImage) : List Block :=
  jsMapIdxFrom (renderBlock publicUrl) elements 0

/-- Whether a block shows its text column first (text left, image right). -/
def Block.textFirst (b : Block) : Bool :=
  match b.cols with
  | ⟨_, ColContent.textElement _ _⟩ :: _ => true
  | _ => false

/-! ## Auxiliary definitions for the proofs -/

/-- The runs that the loop of `createBarSources` pushes from sample `i` on,
given the values of its variables there. -/
def emitted (states statesOrder : List String) (len : Nat) :
    List Row → Nat → Int → Int → Nat → List Run
  | [], _, _, _, _ => []
  | row :: rest, i, debut, cur, sp =>
    if row.sleep_stage ≠ cur ∨ i = len - 1 then
      mkRun states statesOrder (len - 1) debut cur (sp + 1) row ::
        emitted states statesOrder len rest (i + 1) row.timestamp row.sleep_stage 0
    else
      emitted states statesOrder len rest (i + 1) debut cur (sp + 1)

/-- Run-length encoding of a stage sequence, keeping the stage of each
maximal block of equal neighbours, in order. -/
def runStages : List Int → List Int
  | [] => []
  | [a] => [a]
  | a :: b :: rest =>
    if a = b then runStages (b :: rest) else a :: runStages (b :: rest)

/-- Number of rows whose display-order slot is `j`. -/
def slotCount (states statesOrder : List String) (data : List Row) (j : Nat) : Nat :=
  data.countP (fun row => decide (stageSlot states statesOrder row = (j : Int)))

/-- The counting array has five slots and holds the count `f j` in slot `j`. -/
def Counted (a : List (Option JsNum)) (f : Nat → Nat) : Prop :=
  a.length = 5 ∧ ∀ j, j < 5 → a[j]? = some (some (JsNum.num (f j : ℚ)))

/-- The stage before sample `i`: the constant 0 for the first sample, the
stage of sample `i - 1` otherwise. -/
def predecessorStage (stages : List Int) (i : Nat) : Int :=
  if i = 0 then 0 else stages.getD (i - 1) 0

/-- Number of indices `i` with `0 ≤ i ≤ n - 2` whose stage differs from its
predecessor. -/
def changeCount (stages : List Int) : Nat :=
  (List.range (stages.length - 1)).countP
    (fun i => decide (stages.getD i 0 ≠ predecessorStage stages i))

/-- Number of elements of a stage sequence that differ from the element
before them, `prev` standing before the first. -/
def changesFrom (prev : Int) : List Int → Nat
  | [] => 0
  | s :: rest => (if s ≠ prev then 1 else 0) + changesFrom s rest

/-- The number that `++a[k]` stores, from what reading `a[k]` finds: a missing
or empty slot gives `NaN`. -/
def cellBump (c : Option (Option JsNum)) : JsNum :=
  match c with
  | some (some v) => v.incr
  | _ => JsNum.nan

/-- Four runs whose display-order indices are 0, 1, 0, 3: index 3 first
occurs in the fourth run and index 2 never occurs. -/
def exampleRuns : List Run :=
  [ ⟨some "W", 0, JsNum.num 25, 0, 1000⟩, ⟨some "N1", 1, JsNum.num 25, 1000, 2000⟩,
    ⟨some "W", 0, JsNum.num 25, 2000, 3000⟩, ⟨some "N3", 3, JsNum.num 50, 3000, 4000⟩ ]

/-- The series of the worked example: timestamps 0, 1000, ..., 4000 ms and
stages 0, 0, 1, 1, 1. -/
def exampleSeries : List Row :=
  [⟨0, 0⟩, ⟨1000, 0⟩, ⟨2000, 1⟩, ⟨3000, 1⟩, ⟨4000, 1⟩]

/-- A taxonomy of five distinct stage labels. -/
def exampleStates : List String := ["W", "REM", "N1", "N2", "N3"]

/-- A display order: a permutation of `exampleStates`. -/
def exampleOrder : List String := ["W", "N1", "N2", "N3", "REM"]

/-! ## The loop of `createBarSources` -/

theorem forEachIdx_barStep_sources (states statesOrder : List String) (len : Nat)
    (rows : List Row) (i : Nat) (st : BarState) :
    (forEachIdx (barStep states statesOrder len) rows i st).sources =
      st.sources ++
        emitted states statesOrder len rows i st.currentStageDebut st.currentStage
          st.stagePortion := by
  induction rows generalizing i st with
  | nil => simp [forEachIdx, emitted]
  | cons row rest ih =>
    rw [forEachIdx, ih, emitted]
    by_cases h : row.sleep_stage ≠ st.currentStage ∨ i = len - 1
    · simp only [barStep, if_pos h, List.append_assoc, List.singleton_append]
    · simp only [barStep, if_neg h]

theorem createBarSources_eq_emitted (row0 : Row) (rest : List Row)
    (states statesOrder : List String) :
    createBarSources (row0 :: rest) states statesOrder =
      some (emitted states statesOrder (rest.length + 1) (row0 :: rest) 0 row0.timestamp 0 0) := by
  simp [createBarSources, forEachIdx_barStep_sources, barInit]

theorem emitted_head (states statesOrder : List String) (len : Nat)
    (rows : List Row) (i : Nat) (debut cur : Int) (sp : Nat)
    (hne : rows ≠ []) (hlen : i + rows.length = len) :
    ∃ run runs, emitted states statesOrder len rows i debut cur sp = run :: runs ∧
      run.stageText = jsGet states cur ∧ run.currentStageDebut = debut := by
  induction rows generalizing i sp with
  | nil => exact absurd rfl hne
  | cons row rest ih =>
    rw [emitted]
    by_cases hc : row.sleep_stage ≠ cur ∨ i = len - 1
    · rw [if_pos hc]
      exact ⟨_, _, rfl, rfl, rfl⟩
    · rw [if_neg hc]
      have hrest : rest ≠ [] := by
        rintro rfl
        apply hc
        right
        simp at hlen
        omega
      exact ih (i + 1) (sp + 1) hrest (by simp at hlen ⊢; omega)

theorem emitted_stageText (states statesOrder : List String) (len : Nat)
    (rows : List Row) (i : Nat) (debut cur : Int) (sp : Nat)
    (hne : rows ≠ []) (hlen : i + rows.length = len) :
    (emitted states statesOrder len rows i debut cur sp).map Run.stageText =
      (runStages (cur :: (rows.map Row.sleep_stage).dropLast)).map (jsGet states) := by
  induction rows generalizing i debut cur sp with
  | nil => exact absurd rfl hne
  | cons row rest ih =>
    cases rest with
    | nil =>
      have : i = len - 1 := by simp at hlen; omega
      simp [emitted, this, runStages, mkRun]
    | cons r2 rest2 =>
      have hi : i ≠ len - 1 := by simp at hlen; omega
      have hlen2 : (i + 1) + (r2 :: rest2).length = len := by simp at hlen ⊢; omega
      rw [emitted]
      by_cases h : row.sleep_stage = cur
      · have hc : ¬ (row.sleep_stage ≠ cur ∨ i = len - 1) := by simp [h, hi]
        rw [if_neg hc, ih (i + 1) debut cur (sp + 1) (by simp) hlen2]
        simp [List.dropLast, runStages, h]
      · have hc : (row.sleep_stage ≠ cur ∨ i = len - 1) := Or.inl h
        rw [if_pos hc, List.map_cons, ih (i + 1) _ _ 0 (by simp) hlen2]
        have h' : ¬ cur = row.sleep_stage := fun e => h e.symm
        simp [List.dropLast, runStages, h', mkRun]

theorem emitted_same_stage (states statesOrder : List String) (len : Nat)
    (rows : List Row) (i : Nat) (debut cur : Int) (sp : Nat)
    (hne : rows ≠ []) (hlen : i + rows.length = len)
    (hall : ∀ row ∈ rows, row.sleep_stage = cur) :
    emitted states statesOrder len rows i debut cur sp =
      [mkRun states statesOrder (len - 1) debut cur (sp + rows.length) (rows.getLast hne)] := by
  induction rows generalizing i sp with
  | nil => exact absurd rfl hne
  | cons row rest ih =>
    have hrow : row.sleep_stage = cur := hall row (List.mem_cons_self _ _)
    cases rest with
    | nil =>
      have : i = len - 1 := by simp at hlen; omega
      simp [emitted, this]
    | cons r2 rest2 =>
      have hi : i ≠ len - 1 := by simp at hlen; omega
      have hlen2 : (i + 1) + (r2 :: rest2).length = len := by simp at hlen ⊢; omega
      have hc : ¬ (row.sleep_stage ≠ cur ∨ i = len - 1) := by simp [hrow, hi]
      rw [emitted, if_neg hc, ih (i + 1) (sp + 1) (by simp) hlen2
        (fun r hr => hall r (List.mem_cons_of_mem _ hr))]
      simp only [List.length_cons, List.getLast_cons_cons]
      congr 1
      congr 1
      omega

theorem emitted_length_of_changes (states statesOrder : List String) (len : Nat)
    (rows : List Row) (i : Nat) (debut cur : Int) (sp : Nat)
    (hcur : cur = (((i + 1) % 2 : Nat) : Int))
    (halt : ∀ j (h : j < rows.length), (rows[j]).sleep_stage = (((i + j) % 2 : Nat) : Int)) :
    (emitted states statesOrder len rows i debut cur sp).length = rows.length := by
  induction rows generalizing i debut cur sp with
  | nil => simp [emitted]
  | cons row rest ih =>
    have hrow : row.sleep_stage = ((i % 2 : Nat) : Int) := by
      simpa using halt 0 (by simp)
    have hne : row.sleep_stage ≠ cur := by
      rw [hrow, hcur]; omega
    have hnext : row.sleep_stage = (((i + 1 + 1) % 2 : Nat) : Int) := by
      rw [hrow]; omega
    have hrest : ∀ j (h : j < rest.length),
        (rest[j]).sleep_stage = (((i + 1 + j) % 2 : Nat) : Int) := by
      intro j hj
      have := halt (j + 1) (by simpa using hj)
      simp only [List.getElem_cons_succ] at this
      rw [this]
      congr 2
      omega
    rw [emitted, if_pos (Or.inl hne), List.length_cons, ih (i + 1) _ _ _ hnext hrest,
      List.length_cons]

theorem exampleSeries_runs (states statesOrder : List String) :
    createBarSources exampleSeries states statesOrder = some
      [ { stageText := jsGet states 0
          stage := jsIndexOf statesOrder (jsGet states 0)
          stagePortion := JsNum.num 75
          currentStageDebut := 0
          currentStageEnd := 2000 },
        { stageText := jsGet states 1
          stage := jsIndexOf statesOrder (jsGet states 1)
          stagePortion := JsNum.num 50
          currentStageDebut := 2000
          currentStageEnd := 4000 } ] := by
  simp [exampleSeries, createBarSources_eq_emitted, emitted, mkRun, JsNum.divNat, JsNum.mul100]
  norm_num

theorem emitted_counts (states statesOrder : List String) (len : Nat)
    (rows : List Row) (i : Nat) (debut cur : Int) (sp : Nat)
    (hne : rows ≠ []) (hlen : i + rows.length = len) :
    ∃ counts : List Nat,
      (emitted states statesOrder len rows i debut cur sp).map Run.stagePortion =
        counts.map (fun (c : Nat) => ((JsNum.num (c : ℚ)).divNat (len - 1)).mul100) ∧
      counts.sum = sp + rows.length ∧ ∀ c ∈ counts, 1 ≤ c := by
  induction rows generalizing i debut cur sp with
  | nil => exact absurd rfl hne
  | cons row rest ih =>
    cases rest with
    | nil =>
      have : i = len - 1 := by simp at hlen; omega
      exact ⟨[sp + 1], by simp [emitted, this, mkRun], by simp, by simp⟩
    | cons r2 rest2 =>
      have hlen2 : (i + 1) + (r2 :: rest2).length = len := by simp at hlen ⊢; omega
      rw [emitted]
      by_cases hc : row.sleep_stage ≠ cur ∨ i = len - 1
      · obtain ⟨cs, h1, h2, h3⟩ := ih (i + 1) row.timestamp row.sleep_stage 0 (by simp) hlen2
        refine ⟨(sp + 1) :: cs, ?_, ?_, ?_⟩
        · rw [if_pos hc, List.map_cons, h1]
          simp [mkRun]
        · simp only [List.sum_cons, h2, List.length_cons]; omega
        · intro c hcmem
          rcases List.mem_cons.1 hcmem with rfl | h
          · omega
          · exact h3 c h
      · obtain ⟨cs, h1, h2, h3⟩ := ih (i + 1) debut cur (sp + 1) (by simp) hlen2
        refine ⟨cs, ?_, ?_, h3⟩
        · rw [if_neg hc, h1]
        · rw [h2]; simp only [List.length_cons]; omega

theorem emitted_chain (states statesOrder : List String) (len : Nat)
    (rows : List Row) (i : Nat) (debut cur : Int) (sp : Nat)
    (hne : rows ≠ []) (hlen : i + rows.length = len) :
    List.Chain' (fun a b : Run => b.currentStageDebut = a.currentStageEnd)
      (emitted states statesOrder len rows i debut cur sp) := by
  induction rows generalizing i debut cur sp with
  | nil => exact absurd rfl hne
  | cons row rest ih =>
    cases rest with
    | nil =>
      have : i = len - 1 := by simp at hlen; omega
      simp [emitted, this]
    | cons r2 rest2 =>
      have hlen2 : (i + 1) + (r2 :: rest2).length = len := by simp at hlen ⊢; omega
      rw [emitted]
      by_cases hc : row.sleep_stage ≠ cur ∨ i = len - 1
      · rw [if_pos hc]
        have hch := ih (i + 1) row.timestamp row.sleep_stage 0 (by simp) hlen2
        obtain ⟨run2, runs2, he, -, hd⟩ := emitted_head states statesOrder len (r2 :: rest2)
          (i + 1) row.timestamp row.sleep_stage 0 (by simp) hlen2
        rw [he] at hch ⊢
        exact List.chain'_cons.2 ⟨by rw [hd]; rfl, hch⟩
      · rw [if_neg hc]
        exact ih (i + 1) debut cur (sp + 1) (by simp) hlen2

theorem emitted_getLast (states statesOrder : List String) (len : Nat)
    (rows : List Row) (i : Nat) (debut cur : Int) (sp : Nat)
    (hne : rows ≠ []) (hlen : i + rows.length = len) :
    ∃ run, (emitted states statesOrder len rows i debut cur sp).getLast? = some run ∧
      run.currentStageEnd = (rows.getLast hne).timestamp := by
  induction rows generalizing i debut cur sp with
  | nil => exact absurd rfl hne
  | cons row rest ih =>
    cases rest with
    | nil =>
      have : i = len - 1 := by simp at hlen; omega
      exact ⟨mkRun states statesOrder (len - 1) debut cur (sp + 1) row,
        by simp [emitted, this], rfl⟩
    | cons r2 rest2 =>
      have hlen2 : (i + 1) + (r2 :: rest2).length = len := by simp at hlen ⊢; omega
      rw [emitted]
      by_cases hc : row.sleep_stage ≠ cur ∨ i = len - 1
      · rw [if_pos hc]
        obtain ⟨run, hl, hend⟩ := ih (i + 1) row.timestamp row.sleep_stage 0 (by simp) hlen2
        obtain ⟨run2, runs2, he, -, -⟩ := emitted_head states statesOrder len (r2 :: rest2)
          (i + 1) row.timestamp row.sleep_stage 0 (by simp) hlen2
        rw [he] at hl ⊢
        refine ⟨run, ?_, by simpa using hend⟩
        rw [List.getLast?_cons_cons]
        exact hl
      · rw [if_neg hc]
        obtain ⟨run, hl, hend⟩ := ih (i + 1) debut cur (sp + 1) (by simp) hlen2
        exact ⟨run, hl, by simpa using hend⟩

theorem emitted_sorted (states statesOrder : List String) (len : Nat)
    (rows : List Row) (i : Nat) (debut cur : Int) (sp : Nat)
    (hdebut : ∀ row ∈ rows, debut ≤ row.timestamp)
    (hsorted : (rows.map Row.timestamp).Pairwise (· ≤ ·)) :
    (∀ run ∈ emitted states statesOrder len rows i debut cur sp,
        debut ≤ run.currentStageDebut ∧ run.currentStageDebut ≤ run.currentStageEnd) ∧
      (emitted states statesOrder len rows i debut cur sp).Pairwise
        (fun a b => a.currentStageEnd ≤ b.currentStageDebut) := by
  induction rows generalizing i debut cur sp with
  | nil => simp [emitted]
  | cons row rest ih =>
    have hrow : debut ≤ row.timestamp := hdebut row (List.mem_cons_self _ _)
    simp only [List.map_cons, List.pairwise_cons, List.mem_map, forall_exists_index, and_imp,
      forall_apply_eq_imp_iff₂] at hsorted
    obtain ⟨hle, hs⟩ := hsorted
    rw [emitted]
    by_cases hc : row.sleep_stage ≠ cur ∨ i = len - 1
    · rw [if_pos hc]
      obtain ⟨h1, h2⟩ := ih (i + 1) row.timestamp row.sleep_stage 0 hle hs
      constructor
      · intro run hrun
        rcases List.mem_cons.1 hrun with rfl | hmem
        · exact ⟨le_refl _, hrow⟩
        · exact ⟨le_trans hrow (h1 run hmem).1, (h1 run hmem).2⟩
      · exact List.pairwise_cons.2 ⟨fun run hmem => (h1 run hmem).1, h2⟩
    · rw [if_neg hc]
      exact ih (i + 1) debut cur (sp + 1)
        (fun r hr => hdebut r (List.mem_cons_of_mem _ hr)) hs

theorem emitted_closing (states statesOrder : List String) (data : List Row)
    (rows : List Row) (i : Nat) (debut cur : Int) (sp : Nat)
    (hrows : data.drop i = rows) (hsp : sp ≤ i)
    (hinv : ∀ m, i - sp ≤ m → m < i → (data.map Row.sleep_stage)[m]? = some cur) :
    ∀ run ∈ emitted states statesOrder data.length rows i debut cur sp,
      ∃ (c : Int) (a j : Nat), a ≤ j ∧
        run.stageText = jsGet states c ∧
        run.stage = jsIndexOf statesOrder (jsGet states c) ∧
        (data.map Row.timestamp)[j]? = some run.currentStageEnd ∧
        run.stagePortion =
          ((JsNum.num ((j + 1 - a : Nat) : ℚ)).divNat (data.length - 1)).mul100 ∧
        (∀ m, a ≤ m → m < j → (data.map Row.sleep_stage)[m]? = some c) ∧
        (j + 1 < data.length → ∃ s, (data.map Row.sleep_stage)[j]? = some s ∧ s ≠ c) := by
  induction rows generalizing i debut cur sp with
  | nil => simp [emitted]
  | cons row rest ih =>
    have hrow : data[i]? = some row := by
      have := congrArg (fun l => l[0]?) hrows
      simpa using this
    have hrest : data.drop (i + 1) = rest := by
      have := congrArg (List.drop 1) hrows
      simpa [List.drop_drop, Nat.add_comm] using this
    rw [emitted]
    by_cases hc : row.sleep_stage ≠ cur ∨ i = data.length - 1
    · rw [if_pos hc]
      intro run hrun
      rcases List.mem_cons.1 hrun with rfl | hmem
      · refine ⟨cur, i - sp, i, Nat.sub_le _ _, rfl, rfl, ?_, ?_, hinv, ?_⟩
        · simp [hrow, mkRun]
        · have : i + 1 - (i - sp) = sp + 1 := by omega
          simp [mkRun, this]
        · intro hlt
          refine ⟨row.sleep_stage, by simp [hrow], ?_⟩
          rcases hc with h | h
          · exact h
          · omega
      · exact ih (i + 1) row.timestamp row.sleep_stage 0 hrest (Nat.zero_le _)
          (fun m h1 h2 => by omega) run hmem
    · rw [if_neg hc]
      have hcur : row.sleep_stage = cur := by
        by_contra h
        exact hc (Or.inl h)
      refine ih (i + 1) debut cur (sp + 1) hrest (by omega) ?_
      intro m h1 h2
      rcases Nat.lt_or_ge m i with hlt | hge
      · exact hinv m (by omega) hlt
      · have : m = i := by omega
        subst this
        simp [hrow, hcur]

/-! ## C1: the worked example -/

/-- C1 as stated fails: on the worked example (five distinct labels, display
order a permutation of them) the result is not two runs of which the first
ends at 1000 ms and the second starts at 1000 ms. -/
theorem createBarSources_example_claimed_runs_false :
    ¬ ∃ r0 r1 : Run,
      createBarSources exampleSeries exampleStates exampleOrder = some [r0, r1] ∧
      r0.stageText = jsGet exampleStates 0 ∧
      r0.currentStageDebut = 0 ∧ r0.currentStageEnd = 1000 ∧
      r1.stageText = jsGet exampleStates 1 ∧
      r1.currentStageDebut = 1000 ∧ r1.currentStageEnd = 4000 := by
  rintro ⟨r0, r1, h, -, -, h3, -⟩
  rw [exampleSeries_runs] at h
  simp only [Option.some.injEq, List.cons.injEq, and_true] at h
  obtain ⟨h0, -⟩ := h
  rw [← h0] at h3
  simp at h3

/-- C1, amended: on the worked example `createBarSources` returns exactly two
runs, whatever the taxonomy and display order: the first has the label of
stage 0, starts at 0 ms and ends at 2000 ms (the timestamp of the first
sample of stage 1) with portion 75; the second has the label of stage 1,
starts at 2000 ms and ends at 4000 ms with portion 50. -/
theorem createBarSources_example_runs (states statesOrder : List String) :
    createBarSources exampleSeries states statesOrder = some
      [ { stageText := jsGet states 0
          stage := jsIndexOf statesOrder (jsGet states 0)
          stagePortion := JsNum.num 75
          currentStageDebut := 0
          currentStageEnd := 2000 },
        { stageText := jsGet states 1
          stage := jsIndexOf statesOrder (jsGet states 1)
          stagePortion := JsNum.num 50
          currentStageDebut := 2000
          currentStageEnd := 4000 } ] :=
  exampleSeries_runs states statesOrder

/-! ## C2: labels of the runs and run-length encoding -/

/-- C2 as stated fails: for the two samples of stages 0, 1 the labels of the
runs returned are not the run-length encoding of the series (one run is
returned, the series has two blocks). -/
theorem createBarSources_labels_not_rle :
    (createBarSources [⟨0, 0⟩, ⟨1000, 1⟩] exampleStates exampleOrder).map
        (List.map Run.stageText) ≠
      some ((runStages (([⟨0, 0⟩, ⟨1000, 1⟩] : List Row).map Row.sleep_stage)).map
        (jsGet exampleStates)) := by
  simp [createBarSources_eq_emitted, emitted, runStages]

/-- C2, amended: for every non-empty series the labels of the runs returned
by `createBarSources` are, in order, the taxonomy labels of the run-length
encoding of the sequence 0, s₀, …, sₙ₋₂ of the stages the loop tracks (the
constant 0, then the stage of each sample but the last), so the number of
runs is the number of maximal blocks of that sequence; for a series of at
least two samples that starts with stage 0 this is the run-length encoding
of the series without its last sample. -/
theorem createBarSources_labels_rle_shifted (data : List Row)
    (states statesOrder : List String) (hne : data ≠ []) :
    ∃ runs, createBarSources data states statesOrder = some runs ∧
      runs.map Run.stageText =
        (runStages (0 :: (data.map Row.sleep_stage).dropLast)).map (jsGet states) ∧
      runs.length = (runStages (0 :: (data.map Row.sleep_stage).dropLast)).length ∧
      (2 ≤ data.length → (data.head hne).sleep_stage = 0 →
        runs.map Run.stageText =
          (runStages (data.map Row.sleep_stage).dropLast).map (jsGet states)) := by
  match data, hne with
  | row0 :: rest, _ =>
    have key := emitted_stageText states statesOrder (rest.length + 1) (row0 :: rest) 0
      row0.timestamp 0 0 (by simp) (by simp)
    refine ⟨_, createBarSources_eq_emitted row0 rest states statesOrder, key, ?_, ?_⟩
    · have := congrArg List.length key
      simpa using this
    · intro h2 h0
      rw [key]
      cases rest with
      | nil => simp at h2
      | cons row1 rest2 =>
        simp only [List.head_cons] at h0
        simp [List.dropLast, runStages, h0]

/-- Witness for C2 (amended) on the worked example. -/
theorem createBarSources_labels_rle_shifted_witness :
    exampleSeries ≠ [] ∧
    ∃ runs, createBarSources exampleSeries exampleStates exampleOrder = some runs ∧
      runs.map Run.stageText =
        (runStages (0 :: (exampleSeries.map Row.sleep_stage).dropLast)).map
          (jsGet exampleStates) ∧
      runs.length = (runStages (0 :: (exampleSeries.map Row.sleep_stage).dropLast)).length ∧
      (2 ≤ exampleSeries.length → (exampleSeries.head (by decide)).sleep_stage = 0 →
        runs.map Run.stageText =
          (runStages (exampleSeries.map Row.sleep_stage).dropLast).map
            (jsGet exampleStates)) :=
  ⟨by decide,
    createBarSources_labels_rle_shifted exampleSeries exampleStates exampleOrder (by decide)⟩

/-! ## C3: the stage tracked at the first sample -/

/-- C3 as stated fails: for two samples of stage 1 a run is emitted while the
first sample is processed, and the first run returned does not carry the
label of stage 1. -/
theorem createBarSources_first_stage_not_seeded :
    ¬ ((barStep exampleStates exampleOrder 2 (barInit ⟨0, 1⟩) ⟨0, 1⟩ 0).sources = [] ∧
      ∃ run runs,
        createBarSources [⟨0, 1⟩, ⟨1000, 1⟩] exampleStates exampleOrder = some (run :: runs) ∧
        run.stageText = jsGet exampleStates 1) := by
  rintro ⟨h, -⟩
  simp [barStep, barInit] at h

/-- C3, amended: the stage tracked by `createBarSources` starts at the
constant 0 (only the start time is read from the first sample), so for every
series of at least two samples no run is emitted while the first sample is
processed exactly when that sample has stage 0, and the first run returned
carries the label `states[0]`. -/
theorem createBarSources_first_sample (row0 row1 : Row) (rest : List Row)
    (states statesOrder : List String) :
    ((barStep states statesOrder (row0 :: row1 :: rest).length (barInit row0) row0 0).sources
        = [] ↔ row0.sleep_stage = 0) ∧
      ∃ run runs,
        createBarSources (row0 :: row1 :: rest) states statesOrder = some (run :: runs) ∧
        run.stageText = jsGet states 0 := by
  constructor
  · by_cases h : row0.sleep_stage = 0 <;> simp [barStep, barInit, h]
  · rw [createBarSources_eq_emitted]
    by_cases h : row0.sleep_stage = 0
    · have hc : ¬ (row0.sleep_stage ≠ 0 ∨ 0 = ((row1 :: rest).length + 1) - 1) := by simp [h]
      rw [emitted, if_neg hc]
      obtain ⟨run, runs, he, ht, -⟩ := emitted_head states statesOrder
        ((row1 :: rest).length + 1) (row1 :: rest) (0 + 1) row0.timestamp 0 (0 + 1)
        (by simp) (by simp; omega)
      exact ⟨run, runs, by rw [he], ht⟩
    · rw [emitted, if_pos (Or.inl h)]
      exact ⟨_, _, rfl, rfl⟩

/-! ## C4: a series of one stage -/

/-- C4 as stated fails: two samples of stage 1 do not give exactly one run. -/
theorem createBarSources_constant_stage_one_not_single :
    ¬ ∃ run, createBarSources [⟨0, 1⟩, ⟨1000, 1⟩] exampleStates exampleOrder = some [run] := by
  simp [createBarSources_eq_emitted, emitted]

/-- C4, amended: for every non-empty series all of whose samples have stage
0, `createBarSources` returns exactly one run, which starts at the first
sample's timestamp, ends at the last sample's timestamp, carries the label
`states[0]` and counts all the samples. -/
theorem createBarSources_constant_stage_zero (data : List Row)
    (states statesOrder : List String)
    (hne : data ≠ []) (hall : ∀ row ∈ data, row.sleep_stage = 0) :
    createBarSources data states statesOrder = some
      [ { stageText := jsGet states 0
          stage := jsIndexOf statesOrder (jsGet states 0)
          stagePortion :=
            ((JsNum.num (data.length : ℚ)).divNat (data.length - 1)).mul100
          currentStageDebut := (data.head hne).timestamp
          currentStageEnd := (data.getLast hne).timestamp } ] := by
  match data, hne with
  | r0 :: rest, _ =>
    rw [createBarSources_eq_emitted,
      emitted_same_stage _ _ _ _ _ _ _ _ (by simp) (by simp) hall]
    simp [mkRun]

/-- Witness for C4 (amended): three samples of stage 0. -/
theorem createBarSources_constant_stage_zero_witness :
    ([⟨0, 0⟩, ⟨1000, 0⟩, ⟨2000, 0⟩] : List Row) ≠ [] ∧
    (∀ row ∈ ([⟨0, 0⟩, ⟨1000, 0⟩, ⟨2000, 0⟩] : List Row), row.sleep_stage = 0) ∧
    createBarSources [⟨0, 0⟩, ⟨1000, 0⟩, ⟨2000, 0⟩] exampleStates exampleOrder = some
      [ { stageText := some "W"
          stage := 0
          stagePortion := ((JsNum.num (3 : ℚ)).divNat 2).mul100
          currentStageDebut := 0
          currentStageEnd := 2000 } ] :=
  ⟨by decide, by decide,
    createBarSources_constant_stage_zero [⟨0, 0⟩, ⟨1000, 0⟩, ⟨2000, 0⟩] exampleStates
      exampleOrder (by decide) (by decide)⟩

/-! ## C5: an alternating series -/

/-- C5 as stated fails: the alternating series 0, 1, 0, 1 of length 4 does
not give 4 runs. -/
theorem createBarSources_alternating_four_not_four_runs :
    (createBarSources [⟨0, 0⟩, ⟨1000, 1⟩, ⟨2000, 0⟩, ⟨3000, 1⟩] exampleStates
        exampleOrder).map List.length ≠ some 4 := by
  simp [createBarSources_eq_emitted, emitted]

/-- C5, amended: on the series of length N ≥ 1 whose sample `i` has stage
`i mod 2`, `createBarSources` returns N − 1 runs when N ≥ 2 and one run when
N = 1. -/
theorem createBarSources_alternating_count (data : List Row)
    (states statesOrder : List String) (hne : data ≠ [])
    (halt : ∀ i (h : i < data.length), (data[i]).sleep_stage = ((i % 2 : Nat) : Int)) :
    (createBarSources data states statesOrder).map List.length =
      some (if data.length = 1 then 1 else data.length - 1) := by
  match data, hne with
  | [r0], _ => simp [createBarSources_eq_emitted, emitted]
  | r0 :: r1 :: rest, _ =>
    have h0 : r0.sleep_stage = 0 := by simpa using halt 0 (by simp)
    have hrest : ∀ j (h : j < (r1 :: rest).length),
        ((r1 :: rest)[j]).sleep_stage = (((0 + 1 + j) % 2 : Nat) : Int) := by
      intro j hj
      have := halt (j + 1) (by simpa using hj)
      simp only [List.getElem_cons_succ] at this
      rw [this]
      congr 2
      omega
    have hlen := emitted_length_of_changes states statesOrder ((r1 :: rest).length + 1)
      (r1 :: rest) (0 + 1) r0.timestamp 0 (0 + 1) (by simp) hrest
    rw [createBarSources_eq_emitted, emitted]
    simp only [h0]
    simpa using hlen

/-- Witness for C5 (amended): the alternating series of length 3. -/
theorem createBarSources_alternating_count_witness :
    ([⟨0, 0⟩, ⟨1000, 1⟩, ⟨2000, 0⟩] : List Row) ≠ [] ∧
    (createBarSources [⟨0, 0⟩, ⟨1000, 1⟩, ⟨2000, 0⟩] exampleStates exampleOrder).map
      List.length = some 2 :=
  ⟨by decide,
    createBarSources_alternating_count [⟨0, 0⟩, ⟨1000, 1⟩, ⟨2000, 0⟩] exampleStates
      exampleOrder (by decide) (by
        intro i h
        match i, h with
        | 0, _ => rfl
        | 1, _ => rfl
        | 2, _ => rfl)⟩

/-! ## C6: where a run is closed -/

/-- C6 as stated fails: on the worked example it is not the case that every
run ends at the timestamp of a sample carrying the run's own stage label
(the first run, of stage 0, ends at 2000 ms, the first sample of stage 1). -/
theorem createBarSources_end_not_own_sample :
    ¬ ∃ runs, createBarSources exampleSeries exampleStates exampleOrder = some runs ∧
      ∀ run ∈ runs, ∃ row ∈ exampleSeries,
        row.timestamp = run.currentStageEnd ∧
        jsGet exampleStates row.sleep_stage = run.stageText := by
  rintro ⟨runs, h, hall⟩
  rw [exampleSeries_runs] at h
  simp only [Option.some.injEq] at h
  subst h
  obtain ⟨row, hrow, ht, hs⟩ := hall _ (List.mem_cons_self _ _)
  simp only [exampleSeries, List.mem_cons, List.mem_singleton, List.not_mem_nil, or_false] at hrow
  rcases hrow with rfl | rfl | rfl | rfl | rfl <;> simp [jsGet, exampleStates] at ht hs

/-- C6, amended: every run is closed on the sample that triggers the push,
which is the first sample of the following stage or the last sample of the
series. For every non-empty series and every run returned there are a stage
`c` (the stage of the run: its label is `states[c]`), a closing sample `j`
and a first counted sample `a ≤ j` such that `endTime` is the timestamp of
sample `j`, the portion counts the samples `a .. j` (closing sample
included), every counted sample before `j` has stage `c`, and sample `j`
itself has a stage other than `c` unless it is the last sample of the
series. -/
theorem createBarSources_run_closing (data : List Row) (states statesOrder : List String) (hne : data ≠ []) :
    ∃ runs, createBarSources data states statesOrder = some runs ∧
      ∀ run ∈ runs, ∃ (c : Int) (a j : Nat), a ≤ j ∧
        run.stageText = jsGet states c ∧
        run.stage = jsIndexOf statesOrder (jsGet states c) ∧
        (data.map Row.timestamp)[j]? = some run.currentStageEnd ∧
        run.stagePortion =
          ((JsNum.num ((j + 1 - a : Nat) : ℚ)).divNat (data.length - 1)).mul100 ∧
        (∀ m, a ≤ m → m < j → (data.map Row.sleep_stage)[m]? = some c) ∧
        (j + 1 < data.length → ∃ s, (data.map Row.sleep_stage)[j]? = some s ∧ s ≠ c) := by
  match data, hne with
  | row0 :: rest, _ =>
    refine ⟨_, createBarSources_eq_emitted row0 rest states statesOrder, ?_⟩
    exact emitted_closing states statesOrder (row0 :: rest) (row0 :: rest) 0 row0.timestamp 0 0
      rfl (le_refl _) (fun m h1 h2 => by omega)

/-- Witness for C6 (amended) on the worked example. -/
theorem createBarSources_run_closing_witness :
    exampleSeries ≠ [] ∧
    ∃ runs, createBarSources exampleSeries exampleStates exampleOrder = some runs ∧
      ∀ run ∈ runs, ∃ (c : Int) (a j : Nat), a ≤ j ∧
        run.stageText = jsGet exampleStates c ∧
        run.stage = jsIndexOf exampleOrder (jsGet exampleStates c) ∧
        (exampleSeries.map Row.timestamp)[j]? = some run.currentStageEnd ∧
        run.stagePortion =
          ((JsNum.num ((j + 1 - a : Nat) : ℚ)).divNat (exampleSeries.length - 1)).mul100 ∧
        (∀ m, a ≤ m → m < j → (exampleSeries.map Row.sleep_stage)[m]? = some c) ∧
        (j + 1 < exampleSeries.length →
          ∃ s, (exampleSeries.map Row.sleep_stage)[j]? = some s ∧ s ≠ c) :=
  ⟨by decide,
    createBarSources_run_closing exampleSeries exampleStates exampleOrder (by decide)⟩

/-! ## C7: the portions add up to 100 · n / (n − 1) -/

/-- C8: for every non-empty series the runs returned by `createBarSources`
are gap-free and end-anchored: the first run starts at the first sample's
timestamp, each later run starts where the previous one ends, and the last
run ends at the last sample's timestamp; if the timestamps are non-decreasing
then every run has `startTime ≤ endTime` and every run ends no later than any
later run starts (chronological order). -/
theorem createBarSources_gap_free (data : List Row) (states statesOrder : List String) (hne : data ≠ []) :
    ∃ runs, createBarSources data states statesOrder = some runs ∧
      runs.head?.map Run.currentStageDebut = some (data.head hne).timestamp ∧
      List.Chain' (fun a b : Run => b.currentStageDebut = a.currentStageEnd) runs ∧
      runs.getLast?.map Run.currentStageEnd = some (data.getLast hne).timestamp ∧
      (List.Chain' (· ≤ ·) (data.map Row.timestamp) →
        (∀ run ∈ runs, run.currentStageDebut ≤ run.currentStageEnd) ∧
        runs.Pairwise (fun a b => a.currentStageEnd ≤ b.currentStageDebut)) := by
  match data, hne with
  | row0 :: rest, hne =>
    refine ⟨_, createBarSources_eq_emitted row0 rest states statesOrder, ?_, ?_, ?_, ?_⟩
    · obtain ⟨run, runs, he, -, hd⟩ := emitted_head states statesOrder (rest.length + 1)
        (row0 :: rest) 0 row0.timestamp 0 0 (by simp) (by simp)
      rw [he]
      simp [hd]
    · exact emitted_chain states statesOrder _ _ _ _ _ _ (by simp) (by simp)
    · obtain ⟨run, hl, hend⟩ := emitted_getLast states statesOrder (rest.length + 1)
        (row0 :: rest) 0 row0.timestamp 0 0 (by simp) (by simp)
      rw [hl]
      simp [hend]
    · intro hch
      have hp : ((row0 :: rest).map Row.timestamp).Pairwise (· ≤ ·) :=
        List.chain'_iff_pairwise.1 hch
      have hdebut : ∀ row ∈ row0 :: rest, row0.timestamp ≤ row.timestamp := by
        intro row hrow
        rcases List.mem_cons.1 hrow with rfl | hmem
        · exact le_refl _
        · simp only [List.map_cons, List.pairwise_cons, List.mem_map, forall_exists_index,
            and_imp, forall_apply_eq_imp_iff₂] at hp
          exact hp.1 row hmem
      obtain ⟨h1, h2⟩ := emitted_sorted states statesOrder (rest.length + 1) (row0 :: rest) 0
        row0.timestamp 0 0 hdebut hp
      exact ⟨fun run hrun => (h1 run hrun).2, h2⟩

/-- Witness for C8 on the worked example. -/
theorem createBarSources_gap_free_witness :
    exampleSeries ≠ [] ∧
    ∃ runs, createBarSources exampleSeries exampleStates exampleOrder = some runs ∧
      runs.head?.map Run.currentStageDebut =
        some (exampleSeries.head (by decide)).timestamp ∧
      List.Chain' (fun a b : Run => b.currentStageDebut = a.currentStageEnd) runs ∧
      runs.getLast?.map Run.currentStageEnd =
        some (exampleSeries.getLast (by decide)).timestamp ∧
      (List.Chain' (· ≤ ·) (exampleSeries.map Row.timestamp) →
        (∀ run ∈ runs, run.currentStageDebut ≤ run.currentStageEnd) ∧
        runs.Pairwise (fun a b => a.currentStageEnd ≤ b.currentStageDebut)) :=
  ⟨by decide,
    createBarSources_gap_free exampleSeries exampleStates exampleOrder (by decide)⟩

/-! ## `calculateStagesPortion` -/

theorem stageSlot_range (states statesOrder : List String) (row : Row)
    (h5 : states.length = 5) (hperm : statesOrder.Perm states)
    (hvalid : 0 ≤ row.sleep_stage ∧ row.sleep_stage < 5) :
    0 ≤ stageSlot states statesOrder row ∧ stageSlot states statesOrder row < 5 := by
  obtain ⟨h0, h1⟩ := hvalid
  have hk : row.sleep_stage.toNat < states.length := by omega
  have hget : jsGet states row.sleep_stage = some (states[row.sleep_stage.toNat]) := by
    simp [jsGet, not_lt.2 h0, List.getElem?_eq_getElem hk]
  have hmem : states[row.sleep_stage.toNat] ∈ statesOrder :=
    hperm.mem_iff.2 (List.getElem_mem hk)
  have hlt : statesOrder.indexOf (states[row.sleep_stage.toNat]) < statesOrder.length :=
    List.indexOf_lt_length.2 hmem
  have hlen : statesOrder.length = 5 := by rw [hperm.length_eq, h5]
  simp only [stageSlot, hget, jsIndexOf, if_pos hmem]
  omega

theorem incrementAt_counted (a : List (Option JsNum)) (f : Nat → Nat) (k : Int)
    (ha : Counted a f) (hk : 0 ≤ k ∧ k < 5) :
    Counted (incrementAt a k) (fun j => f j + if k = (j : Int) then 1 else 0) := by
  obtain ⟨hlen, hget⟩ := ha
  obtain ⟨h0, h1⟩ := hk
  have hkn : k.toNat < a.length := by omega
  have hk5 : k.toNat < 5 := by omega
  unfold incrementAt
  rw [if_neg (not_lt.2 h0), if_pos hkn]
  refine ⟨by simp [hlen], ?_⟩
  intro j hj
  rw [List.getElem?_set]
  by_cases hjk : k.toNat = j
  · have hkj : k = (j : Int) := by omega
    rw [if_pos hjk, if_pos (by omega), hget _ hk5]
    simp [JsNum.incr, hkj, hjk]
  · have hkj : ¬ k = (j : Int) := by omega
    rw [if_neg hjk, hget j hj]
    simp [hkj]

theorem foldl_incrementAt_counted (states statesOrder : List String) (data : List Row)
    (a : List (Option JsNum)) (f : Nat → Nat) (ha : Counted a f)
    (hslot : ∀ row ∈ data,
      0 ≤ stageSlot states statesOrder row ∧ stageSlot states statesOrder row < 5) :
    Counted (data.foldl (fun a row => incrementAt a (stageSlot states statesOrder row)) a)
      (fun j => f j + slotCount states statesOrder data j) := by
  induction data generalizing a f with
  | nil => simpa [slotCount] using ha
  | cons row rest ih =>
    have h := ih _ _ (incrementAt_counted a f _ ha (hslot row (List.mem_cons_self _ _)))
      (fun r hr => hslot r (List.mem_cons_of_mem _ hr))
    rw [List.foldl_cons]
    have hf : (fun j => f j + slotCount states statesOrder (row :: rest) j) =
        (fun j => (f j + if stageSlot states statesOrder row = (j : Int) then 1 else 0) +
          slotCount states statesOrder rest j) := by
      funext j
      simp only [slotCount, List.countP_cons, decide_eq_true_eq]
      omega
    rw [hf]
    exact h

theorem calculateStagesPortion_counted (data : List Row) (states statesOrder : List String)
    (hne : data ≠ [])
    (hslot : ∀ row ∈ data,
      0 ≤ stageSlot states statesOrder row ∧ stageSlot states statesOrder row < 5) :
    (calculateStagesPortion data states statesOrder).length = 5 ∧
      ∀ j, j < 5 → (calculateStagesPortion data states statesOrder)[j]? =
        some (some (JsNum.num
          ((slotCount states statesOrder data j : ℚ) / (data.length : ℚ)))) := by
  have hinit : Counted [some (JsNum.num 0), some (JsNum.num 0), some (JsNum.num 0),
      some (JsNum.num 0), some (JsNum.num 0)] (fun _ => 0) := by
    refine ⟨rfl, ?_⟩
    intro j hj
    match j, hj with
    | 0, _ => simp
    | 1, _ => simp
    | 2, _ => simp
    | 3, _ => simp
    | 4, _ => simp
  obtain ⟨hlen, hget⟩ := foldl_incrementAt_counted states statesOrder data _ _ hinit hslot
  have hn : data.length ≠ 0 := by
    intro h
    exact hne (List.length_eq_zero.1 h)
  unfold calculateStagesPortion
  refine ⟨by simp [hlen], ?_⟩
  intro j hj
  rw [List.getElem?_map, hget j hj]
  simp [JsNum.divNat, hn]

/-- C9: for every non-empty series whose stage ids are valid indices into a
taxonomy of 5 labels, with a display order that is a permutation of those
labels, `calculateStagesPortion` returns exactly 5 entries and entry `j` is
the number of samples whose display-order slot
`statesOrder.indexOf(states[sleep_stage])` is `j`, divided by the number of
samples; in particular the entry of a slot that never occurs is 0. -/
theorem calculateStagesPortion_entries (data : List Row) (states statesOrder : List String)
    (hne : data ≠ []) (h5 : states.length = 5) (hperm : statesOrder.Perm states)
    (hvalid : ∀ row ∈ data, 0 ≤ row.sleep_stage ∧ row.sleep_stage < 5) :
    (calculateStagesPortion data states statesOrder).length = 5 ∧
      ∀ j : Nat, j < 5 →
        (calculateStagesPortion data states statesOrder)[j]? =
          some (some (JsNum.num
            ((data.countP (fun row => decide (stageSlot states statesOrder row = (j : Int))) : ℚ)
              / (data.length : ℚ)))) ∧
        ((∀ row ∈ data, stageSlot states statesOrder row ≠ (j : Int)) →
          (calculateStagesPortion data states statesOrder)[j]? = some (some (JsNum.num 0))) := by
  have hslot : ∀ row ∈ data,
      0 ≤ stageSlot states statesOrder row ∧ stageSlot states statesOrder row < 5 :=
    fun row hrow => stageSlot_range states statesOrder row h5 hperm (hvalid row hrow)
  obtain ⟨hlen, hget⟩ := calculateStagesPortion_counted data states statesOrder hne hslot
  refine ⟨hlen, fun j hj => ⟨hget j hj, ?_⟩⟩
  intro hnever
  have hzero : slotCount states statesOrder data j = 0 := by
    simp only [slotCount, List.countP_eq_zero, decide_eq_true_eq]
    exact hnever
  rw [hget j hj, hzero]
  simp

/-- Witness for C9 on the worked example. -/
theorem calculateStagesPortion_entries_witness :
    exampleSeries ≠ [] ∧ exampleStates.length = 5 ∧ exampleOrder.Perm exampleStates ∧
    (∀ row ∈ exampleSeries, 0 ≤ row.sleep_stage ∧ row.sleep_stage < 5) ∧
    ((calculateStagesPortion exampleSeries exampleStates exampleOrder).length = 5 ∧
      ∀ j : Nat, j < 5 →
        (calculateStagesPortion exampleSeries exampleStates exampleOrder)[j]? =
          some (some (JsNum.num
            ((exampleSeries.countP
                (fun row => decide (stageSlot exampleStates exampleOrder row = (j : Int))) : ℚ)
              / (exampleSeries.length : ℚ)))) ∧
        ((∀ row ∈ exampleSeries, stageSlot exampleStates exampleOrder row ≠ (j : Int)) →
          (calculateStagesPortion exampleSeries exampleStates exampleOrder)[j]? =
            some (some (JsNum.num 0)))) :=
  ⟨by decide, by decide, by decide, by decide,
    calculateStagesPortion_entries exampleSeries exampleStates exampleOrder (by decide)
      (by decide) (by decide) (by decide)⟩

/-! ## C10: the proportion vector sums to 1 -/

theorem jsFindIndexFrom_ge {α : Type} (p : α → Bool) (xs : List α) (i : Nat) :
    jsFindIndexFrom p xs i = -1 ∨ (i : Int) ≤ jsFindIndexFrom p xs i := by
  induction xs generalizing i with
  | nil => exact Or.inl rfl
  | cons x xs ih =>
    rw [jsFindIndexFrom]
    by_cases hp : p x = true
    · rw [if_pos hp]; exact Or.inr (le_refl _)
    · rw [if_neg hp]
      rcases ih (i + 1) with h | h
      · exact Or.inl h
      · right; push_cast at h; omega

theorem jsFindIndexFrom_eq_neg_one {α : Type} (p : α → Bool) (xs : List α) (i : Nat) :
    jsFindIndexFrom p xs i = -1 ↔ ∀ x ∈ xs, p x = false := by
  induction xs generalizing i with
  | nil => simp [jsFindIndexFrom]
  | cons x xs ih =>
    rw [jsFindIndexFrom]
    by_cases hp : p x = true
    · rw [if_pos hp]
      constructor
      · intro h; omega
      · intro h
        have := h x (List.mem_cons_self _ _)
        rw [hp] at this
        exact absurd this (by simp)
    · rw [if_neg hp, ih (i + 1)]
      simp only [Bool.not_eq_true] at hp
      simp [hp]

theorem jsFindIndexFrom_eq_add {α : Type} (p : α → Bool) (xs : List α) (i k : Nat) :
    jsFindIndexFrom p xs i = ((i + k : Nat) : Int) ↔
      (∃ x, xs[k]? = some x ∧ p x = true) ∧
        ∀ m, m < k → ∀ x, xs[m]? = some x → p x = false := by
  induction xs generalizing i k with
  | nil => simp [jsFindIndexFrom]; omega
  | cons x xs ih =>
    rw [jsFindIndexFrom]
    by_cases hp : p x = true
    · rw [if_pos hp]
      cases k with
      | zero => simp [hp]
      | succ k =>
        constructor
        · intro h; push_cast at h; omega
        · rintro ⟨-, h⟩
          have := h 0 (Nat.succ_pos _) x (by simp)
          rw [hp] at this
          exact absurd this (by simp)
    · rw [if_neg hp]
      have hpf : p x = false := by simpa using hp
      cases k with
      | zero =>
        constructor
        · intro h
          rcases jsFindIndexFrom_ge p xs (i + 1) with h' | h'
          · rw [h'] at h; omega
          · rw [h] at h'; push_cast at h'; omega
        · rintro ⟨⟨y, hy, hpy⟩, -⟩
          simp only [List.getElem?_cons_zero, Option.some.injEq] at hy
          subst hy
          exact absurd hpy hp
      | succ k =>
        have e : ((i + (k + 1) : Nat) : Int) = ((i + 1 + k : Nat) : Int) := by
          push_cast; omega
        rw [e, ih (i + 1) k]
        simp only [List.getElem?_cons_succ]
        constructor
        · rintro ⟨h1, h2⟩
          refine ⟨h1, ?_⟩
          intro m hm y hy
          cases m with
          | zero =>
            simp only [List.getElem?_cons_zero, Option.some.injEq] at hy
            subst hy
            exact hpf
          | succ m =>
            simp only [List.getElem?_cons_succ] at hy
            exact h2 m (by omega) y hy
        · rintro ⟨h1, h2⟩
          refine ⟨h1, ?_⟩
          intro m hm y hy
          exact h2 (m + 1) (by omega) y (by simpa using hy)

theorem findFirstStageIndex_eq (states : List Run) :
    findFirstStageIndex states =
      [jsFindIndex (fun element : Run => decide (element.stage = ((0 : Nat) : Int))) states,
       jsFindIndex (fun element : Run => decide (element.stage = ((1 : Nat) : Int))) states,
       jsFindIndex (fun element : Run => decide (element.stage = ((2 : Nat) : Int))) states,
       jsFindIndex (fun element : Run => decide (element.stage = ((3 : Nat) : Int))) states,
       jsFindIndex (fun element : Run => decide (element.stage = ((4 : Nat) : Int))) states] := rfl

theorem findFirstStageIndex_getElem? (states : List Run) (s : Nat) (hs : s < 5) :
    (findFirstStageIndex states)[s]? =
      some (jsFindIndex (fun element : Run => decide (element.stage = (s : Int))) states) := by
  rw [findFirstStageIndex_eq]
  match s, hs with
  | 0, _ => rfl
  | 1, _ => rfl
  | 2, _ => rfl
  | 3, _ => rfl
  | 4, _ => rfl

theorem findFirstStageIndex_slot_iff (R : List Run) (s k : Nat) (hs : s < 5) :
    (findFirstStageIndex R)[s]? = some (k : Int) ↔
      (∃ run, R[k]? = some run ∧ run.stage = (s : Int)) ∧
        ∀ m, m < k → ∀ run, R[m]? = some run → run.stage ≠ (s : Int) := by
  rw [findFirstStageIndex_getElem? R s hs, Option.some.injEq, jsFindIndex]
  have := jsFindIndexFrom_eq_add (fun element : Run => decide (element.stage = (s : Int))) R 0 k
  simp only [Nat.zero_add, decide_eq_true_eq, decide_eq_false_iff_not] at this
  exact this

/-! ## C11: a slot holds the index of the first run of its stage -/

/-- C11: for every run sequence `R` and every `s` in 0..4, if slot `s` of
`findFirstStageIndex R` holds a value `v ≥ 0` then `v` is an index `k` below
the length of `R`, run `R[k]` has `stage` (display-order index) `s` and no
run before index `k` has it; conversely the slot holds `k` whenever `R[k]` is
the first run of `stage` `s` (so a stage first met in the fourth run gives
slot value 3). -/
theorem findFirstStageIndex_first_occurrence (R : List Run) (s : Nat) (hs : s < 5) :
    (∀ v : Int, (findFirstStageIndex R)[s]? = some v → 0 ≤ v →
      ∃ k : Nat, v = (k : Int) ∧ k < R.length ∧
        (∃ run, R[k]? = some run ∧ run.stage = (s : Int)) ∧
        ∀ m, m < k → ∀ run, R[m]? = some run → run.stage ≠ (s : Int)) ∧
    (∀ k : Nat, (∃ run, R[k]? = some run ∧ run.stage = (s : Int)) →
      (∀ m, m < k → ∀ run, R[m]? = some run → run.stage ≠ (s : Int)) →
      (findFirstStageIndex R)[s]? = some (k : Int)) := by
  constructor
  · intro v hslot hv
    have hvk : v = ((v.toNat : Nat) : Int) := by omega
    rw [hvk] at hslot
    obtain ⟨⟨run, hrun, hstage⟩, hbefore⟩ := (findFirstStageIndex_slot_iff R s v.toNat hs).1 hslot
    refine ⟨v.toNat, hvk, ?_, ⟨run, hrun, hstage⟩, hbefore⟩
    by_contra hge
    rw [List.getElem?_eq_none (by omega)] at hrun
    exact absurd hrun (by simp)
  · intro k hk hbefore
    exact (findFirstStageIndex_slot_iff R s k hs).2 ⟨hk, hbefore⟩

/-- Witness for C11: in `exampleRuns` index 3 first occurs in the fourth run,
and slot 3 holds 3. -/
theorem findFirstStageIndex_first_occurrence_witness :
    3 < 5 ∧ (findFirstStageIndex exampleRuns)[3]? = some 3 :=
  ⟨by decide,
    (findFirstStageIndex_first_occurrence exampleRuns 3 (by decide)).2 3
      ⟨⟨some "N3", 3, JsNum.num 50, 3000, 4000⟩, rfl, rfl⟩
      (by
        intro m hm run hrun
        match m, hm with
        | 0, _ =>
          simp only [exampleRuns, List.getElem?_cons_zero, Option.some.injEq] at hrun
          subst hrun
          decide
        | 1, _ =>
          simp only [exampleRuns, List.getElem?_cons_succ, List.getElem?_cons_zero,
            Option.some.injEq] at hrun
          subst hrun
          decide
        | 2, _ =>
          simp only [exampleRuns, List.getElem?_cons_succ, List.getElem?_cons_zero,
            Option.some.injEq] at hrun
          subst hrun
          decide)⟩

/-! ## C12: the not-found value -/

/-- C12: for every run sequence `R`, the empty one included,
`findFirstStageIndex R` has exactly 5 slots, and for every `s` in 0..4 slot
`s` holds the not-found value −1 if and only if no run of `R` has `stage`
(display-order index) `s`. -/
theorem findFirstStageIndex_not_found (R : List Run) :
    (findFirstStageIndex R).length = 5 ∧
      ∀ s : Nat, s < 5 →
        ((findFirstStageIndex R)[s]? = some (-1) ↔ ∀ run ∈ R, run.stage ≠ (s : Int)) := by
  refine ⟨by rw [findFirstStageIndex_eq]; rfl, ?_⟩
  intro s hs
  rw [findFirstStageIndex_getElem? R s hs, Option.some.injEq, jsFindIndex,
    jsFindIndexFrom_eq_neg_one]
  simp


/-- Witness for C12 on `exampleRuns`. -/
theorem findFirstStageIndex_not_found_witness :
    (findFirstStageIndex exampleRuns).length = 5 ∧
      ∀ s : Nat, s < 5 →
        ((findFirstStageIndex exampleRuns)[s]? = some (-1) ↔
          ∀ run ∈ exampleRuns, run.stage ≠ (s : Int)) :=
  findFirstStageIndex_not_found exampleRuns

/-! ## C13: `convertSource` -/

theorem barDomainX_eq (xFocus : Scale) (data : List Row) (hne : data ≠ []) :
    barDomainX xFocus data =
      some { domain := [(data.head hne).timestamp, (data.getLast hne).timestamp] } := by
  have h0 : jsGet data 0 = some (data.head hne) := by
    cases data with
    | nil => exact absurd rfl hne
    | cons r rest => simp [jsGet]
  have hlen : 0 < data.length := List.length_pos.2 hne
  have h1 : jsGet data ((data.length : Int) - 1) = some (data.getLast hne) := by
    have hneg : ¬ ((data.length : Int) - 1 < 0) := by omega
    have hnat : ((data.length : Int) - 1).toNat = data.length - 1 := by omega
    rw [jsGet, if_neg hneg, hnat, List.getLast_eq_getElem]
    exact List.getElem?_eq_getElem (by omega)
  simp [barDomainX, h0, h1]

/-- C14: for every non-empty series `barDomainX` sets the domain of the scale
to the pair (timestamp of the first sample, timestamp of the last sample), in
that order; the samples in between play no part (any two series with the same
first and last sample give the same domain, sorted or not); on the worked
example the domain is (0 ms, 4000 ms). -/
theorem barDomainX_first_last (xFocus : Scale) (data : List Row) (hne : data ≠ []) :
    barDomainX xFocus data =
        some { domain := [(data.head hne).timestamp, (data.getLast hne).timestamp] } ∧
      (∀ (first last : Row) (middle middle' : List Row),
        barDomainX xFocus (first :: (middle ++ [last])) =
          barDomainX xFocus (first :: (middle' ++ [last]))) ∧
      barDomainX xFocus exampleSeries = some { domain := [0, 4000] } := by
  refine ⟨barDomainX_eq xFocus data hne, ?_, ?_⟩
  · intro first last middle middle'
    rw [barDomainX_eq _ _ (by simp), barDomainX_eq _ _ (by simp)]
    simp
  · rw [barDomainX_eq _ _ (by decide)]
    rfl

/-- Witness for C14: an unsorted series keeps its first and last timestamps. -/
theorem barDomainX_first_last_witness :
    ([⟨5000, 0⟩, ⟨9000, 1⟩, ⟨1000, 2⟩, ⟨3000, 1⟩] : List Row) ≠ [] ∧
    barDomainX { domain := [] } [⟨5000, 0⟩, ⟨9000, 1⟩, ⟨1000, 2⟩, ⟨3000, 1⟩] =
      some { domain := [5000, 3000] } :=
  ⟨by decide,
    (barDomainX_first_last { domain := [] } [⟨5000, 0⟩, ⟨9000, 1⟩, ⟨1000, 2⟩, ⟨3000, 1⟩]
      (by decide)).1⟩

/-! ## C15: the time domain of the empty series -/

/-- C15 as stated fails: on the empty series `barDomainX` does not complete
with a scale (it throws before the domain is assigned). -/
theorem barDomainX_empty_not_completed :
    ¬ ∃ scale, barDomainX { domain := [0, 1] } [] = some scale := by
  simp [barDomainX, jsGet]

/-- C15, amended: for the empty series `barDomainX` raises an error, the
`TypeError` of reading `timestamp` of `data[0]`, which is `undefined`; the
argument of `domain` is never built and no domain is assigned. -/
theorem barDomainX_empty_throws (xFocus : Scale) : barDomainX xFocus [] = none := rfl

/-! ## C16: `AlternatingTextImage` -/

theorem jsMapIdxFrom_length {α β : Type} (f : α → Nat → β) (xs : List α) (i : Nat) :
    (jsMapIdxFrom f xs i).length = xs.length := by
  induction xs generalizing i with
  | nil => rfl
  | cons x xs ih => simp [jsMapIdxFrom, ih]

theorem jsMapIdxFrom_getElem? {α β : Type} (f : α → Nat → β) (xs : List α) (i j : Nat) :
    (jsMapIdxFrom f xs i)[j]? = (xs[j]?).map (fun x => f x (i + j)) := by
  induction xs generalizing i j with
  | nil => simp [jsMapIdxFrom]
  | cons x xs ih =>
    cases j with
    | zero => simp [jsMapIdxFrom]
    | succ j =>
      simp only [jsMapIdxFrom, List.getElem?_cons_succ, ih]
      congr 1
      funext y
      congr 1
      omega

theorem renderBlock_textFirst (publicUrl : String) (entry : TextImage) (i : Nat) :
    (renderBlock publicUrl entry i).textFirst = true ↔ i % 2 = 0 := by
  by_cases h : i % 2 = 0 <;> simp [renderBlock, Block.textFirst, h]

/-- C16: for every list of entries `AlternatingTextImage` renders exactly one
block per entry, in input order (block `i` has key `i` and is built from
entry `i`), and block `i` places the text column first (text left, image
right) if and only if `i` is even; for 3 entries the layouts are text-left,
image-left, text-left. -/
theorem AlternatingTextImage_blocks (publicUrl : String) (elements : List TextImage) :
    (AlternatingTextImage publicUrl elements).length = elements.length ∧
      (∀ i (h : i < elements.length),
        ∃ b, (AlternatingTextImage publicUrl elements)[i]? = some b ∧
          b.key = i ∧
          b.cols =
            (if i % 2 = 0 then
              [⟨"8", ColContent.textElement (elements[i]).title (elements[i]).text⟩,
                ⟨"4", ColContent.imageElement (publicUrl ++ "/" ++ (elements[i]).image)
                  (elements[i]).title⟩]
            else
              [⟨"4", ColContent.imageElement (publicUrl ++ "/" ++ (elements[i]).image)
                  (elements[i]).title⟩,
                ⟨"8", ColContent.textElement (elements[i]).title (elements[i]).text⟩]) ∧
          (b.textFirst = true ↔ i % 2 = 0)) ∧
      (∀ e0 e1 e2 : TextImage,
        (AlternatingTextImage publicUrl [e0, e1, e2]).map Block.textFirst =
          [true, false, true]) := by
  refine ⟨jsMapIdxFrom_length _ _ _, ?_, ?_⟩
  · intro i h
    refine ⟨renderBlock publicUrl elements[i] i, ?_, rfl, rfl, renderBlock_textFirst _ _ _⟩
    rw [AlternatingTextImage, jsMapIdxFrom_getElem?, List.getElem?_eq_getElem h]
    simp
  · intro e0 e1 e2
    rfl

/-- Witness for C16: two entries. -/
theorem AlternatingTextImage_blocks_witness :
    (AlternatingTextImage "" [⟨"a", "b", "c.png"⟩, ⟨"d", "e", "f.png"⟩]).length = 2 ∧
    (AlternatingTextImage "" [⟨"a", "b", "c.png"⟩, ⟨"d", "e", "f.png"⟩,
      ⟨"g", "h", "i.png"⟩]).map Block.textFirst = [true, false, true] :=
  ⟨(AlternatingTextImage_blocks "" [⟨"a", "b", "c.png"⟩, ⟨"d", "e", "f.png"⟩]).1,
    (AlternatingTextImage_blocks "" []).2.2 ⟨"a", "b", "c.png"⟩ ⟨"d", "e", "f.png"⟩
      ⟨"g", "h", "i.png"⟩⟩

/-! ## C17: the number of runs -/

theorem emitted_length (states statesOrder : List String) (len : Nat)
    (rows : List Row) (i : Nat) (debut cur : Int) (sp : Nat)
    (hne : rows ≠ []) (hlen : i + rows.length = len) :
    (emitted states statesOrder len rows i debut cur sp).length =
      1 + changesFrom cur (rows.map Row.sleep_stage).dropLast := by
  induction rows generalizing i debut cur sp with
  | nil => exact absurd rfl hne
  | cons row rest ih =>
    cases rest with
    | nil =>
      have : i = len - 1 := by simp at hlen; omega
      simp [emitted, this, changesFrom]
    | cons r2 rest2 =>
      have hi : i ≠ len - 1 := by simp at hlen; omega
      have hlen2 : (i + 1) + (r2 :: rest2).length = len := by simp at hlen ⊢; omega
      rw [emitted]
      by_cases h : row.sleep_stage = cur
      · have hc : ¬ (row.sleep_stage ≠ cur ∨ i = len - 1) := by simp [h, hi]
        rw [if_neg hc, ih (i + 1) debut cur (sp + 1) (by simp) hlen2]
        simp [List.dropLast, changesFrom, h]
      · have hc : (row.sleep_stage ≠ cur ∨ i = len - 1) := Or.inl h
        rw [if_pos hc, List.length_cons, ih (i + 1) _ _ 0 (by simp) hlen2]
        simp [List.dropLast, changesFrom, h]
        omega

theorem changesFrom_eq_countP (prev : Int) (l : List Int) :
    changesFrom prev l =
      (List.range l.length).countP
        (fun i => decide (l.getD i 0 ≠ (if i = 0 then prev else l.getD (i - 1) 0))) := by
  induction l generalizing prev with
  | nil => simp [changesFrom]
  | cons s rest ih =>
    rw [changesFrom, ih s, List.length_cons, List.range_succ_eq_map, List.countP_cons,
      List.countP_map]
    have hcongr : List.countP
        ((fun i => decide ((s :: rest).getD i 0 ≠
            (if i = 0 then prev else (s :: rest).getD (i - 1) 0))) ∘ Nat.succ)
        (List.range rest.length) =
        List.countP (fun i => decide (rest.getD i 0 ≠ (if i = 0 then s else rest.getD (i - 1) 0)))
          (List.range rest.length) := by
      apply List.countP_congr
      intro j _
      cases j with
      | zero => simp
      | succ j => simp
    rw [hcongr]
    simp
    omega

theorem getD_dropLast_of_lt (l : List Int) (i : Nat) (h : i < l.length - 1) :
    l.dropLast.getD i 0 = l.getD i 0 := by
  rw [List.getD_eq_getElem?_getD, List.getD_eq_getElem?_getD, List.getElem?_dropLast,
    if_pos h]

theorem changeCount_eq_changesFrom (stages : List Int) :
    changeCount stages = changesFrom 0 stages.dropLast := by
  rw [changesFrom_eq_countP, changeCount, List.length_dropLast]
  apply List.countP_congr
  intro i hi
  have hi' : i < stages.length - 1 := List.mem_range.1 hi
  have h1 := getD_dropLast_of_lt stages i hi'
  have hb : decide (stages.getD i 0 ≠ predecessorStage stages i) =
      decide (stages.dropLast.getD i 0 ≠
        (if i = 0 then 0 else stages.dropLast.getD (i - 1) 0)) := by
    rw [h1]
    unfold predecessorStage
    by_cases h0 : i = 0
    · rw [if_pos h0, if_pos h0]
    · rw [if_neg h0, if_neg h0, getD_dropLast_of_lt stages (i - 1) (by omega)]
  rw [hb]

/-- C17: for every series of n ≥ 1 samples the number of runs returned by
`createBarSources` is 1 + the number of indices `i` with `0 ≤ i ≤ n − 2`
whose stage differs from its predecessor (the constant 0 for `i = 0`, the
stage of sample `i − 1` otherwise); hence there are between 1 and n runs. -/
theorem createBarSources_run_count (data : List Row) (states statesOrder : List String) (hne : data ≠ []) :
    ∃ runs, createBarSources data states statesOrder = some runs ∧
      runs.length = 1 + changeCount (data.map Row.sleep_stage) ∧
      1 ≤ runs.length ∧ runs.length ≤ data.length := by
  match data, hne with
  | row0 :: rest, _ =>
    have hl := emitted_length states statesOrder (rest.length + 1) (row0 :: rest) 0
      row0.timestamp 0 0 (by simp) (by simp)
    rw [← changeCount_eq_changesFrom] at hl
    refine ⟨_, createBarSources_eq_emitted row0 rest states statesOrder, hl, by omega, ?_⟩
    rw [hl]
    have : changeCount ((row0 :: rest).map Row.sleep_stage) ≤
        ((row0 :: rest).map Row.sleep_stage).length - 1 := by
      unfold changeCount
      exact le_trans (List.countP_le_length _) (by simp)
    simp at this ⊢
    omega


/-- Witness for C17 on the worked example. -/
theorem createBarSources_run_count_witness :
    exampleSeries ≠ [] ∧
    ∃ runs, createBarSources exampleSeries exampleStates exampleOrder = some runs ∧
      runs.length = 1 + changeCount (exampleSeries.map Row.sleep_stage) ∧
      1 ≤ runs.length ∧ runs.length ≤ exampleSeries.length :=
  ⟨by decide, createBarSources_run_count exampleSeries exampleStates exampleOrder (by decide)⟩

/-! ## C18: consecutive runs have different stages -/

theorem runStages_cons (a : Int) (l : List Int) : ∃ t, runStages (a :: l) = a :: t := by
  induction l generalizing a with
  | nil => exact ⟨[], rfl⟩
  | cons b rest ih =>
    rw [runStages]
    by_cases h : a = b
    · rw [if_pos h, h]; exact ih b
    · rw [if_neg h]; exact ⟨_, rfl⟩

theorem runStages_chain (P : Int → Prop) (l : List Int) (hP : ∀ c ∈ l, P c) :
    List.Chain' (fun a b : Int => a ≠ b ∧ P a ∧ P b) (runStages l) := by
  cases l with
  | nil => simp [runStages]
  | cons a l =>
    induction l generalizing a with
    | nil => simp [runStages]
    | cons b rest ih =>
      have hrest : ∀ c ∈ b :: rest, P c := fun c hc => hP c (List.mem_cons_of_mem _ hc)
      rw [runStages]
      by_cases h : a = b
      · rw [if_pos h]; exact ih b hrest
      · rw [if_neg h]
        obtain ⟨t, ht⟩ := runStages_cons b rest
        have := ih b hrest
        rw [ht] at this ⊢
        exact List.chain'_cons.2
          ⟨⟨h, hP a (List.mem_cons_self _ _), hP b (by simp)⟩, this⟩

theorem emitted_stage_eq (states statesOrder : List String) (len : Nat)
    (rows : List Row) (i : Nat) (debut cur : Int) (sp : Nat) :
    ∀ run ∈ emitted states statesOrder len rows i debut cur sp,
      run.stage = jsIndexOf statesOrder run.stageText := by
  induction rows generalizing i debut cur sp with
  | nil => simp [emitted]
  | cons row rest ih =>
    rw [emitted]
    by_cases hc : row.sleep_stage ≠ cur ∨ i = len - 1
    · rw [if_pos hc]
      intro run hrun
      rcases List.mem_cons.1 hrun with rfl | hmem
      · rfl
      · exact ih _ _ _ _ run hmem
    · rw [if_neg hc]
      exact ih _ _ _ _

theorem jsGet_ne_of_ne (states : List String) (hnodup : states.Nodup) (c c' : Int)
    (hc : 0 ≤ c ∧ c < states.length) (hc' : 0 ≤ c' ∧ c' < states.length) (hne : c ≠ c') :
    jsGet states c ≠ jsGet states c' := by
  have h1 : c.toNat < states.length := by omega
  have h2 : c'.toNat < states.length := by omega
  simp only [jsGet, not_lt.2 hc.1, not_lt.2 hc'.1, if_false, List.getElem?_eq_getElem h1,
    List.getElem?_eq_getElem h2, ne_eq, Option.some.injEq]
  intro h
  have := (hnodup.getElem_inj_iff).1 h
  omega

theorem jsIndexOf_jsGet_ne_of_ne (states statesOrder : List String) (hnodup : states.Nodup)
    (hperm : statesOrder.Perm states) (c c' : Int)
    (hc : 0 ≤ c ∧ c < states.length) (hc' : 0 ≤ c' ∧ c' < states.length) (hne : c ≠ c') :
    jsIndexOf statesOrder (jsGet states c) ≠ jsIndexOf statesOrder (jsGet states c') := by
  have h1 : c.toNat < states.length := by omega
  have h2 : c'.toNat < states.length := by omega
  have hlab := jsGet_ne_of_ne states hnodup c c' hc hc' hne
  have e1 : jsGet states c = some (states[c.toNat]) := by
    simp [jsGet, not_lt.2 hc.1, List.getElem?_eq_getElem h1]
  have e2 : jsGet states c' = some (states[c'.toNat]) := by
    simp [jsGet, not_lt.2 hc'.1, List.getElem?_eq_getElem h2]
  have m1 : states[c.toNat] ∈ statesOrder := hperm.mem_iff.2 (List.getElem_mem h1)
  have m2 : states[c'.toNat] ∈ statesOrder := hperm.mem_iff.2 (List.getElem_mem h2)
  rw [e1, e2] at hlab ⊢
  simp only [jsIndexOf, if_pos m1, if_pos m2, ne_eq, Nat.cast_inj]
  intro h
  exact hlab (congrArg some ((List.indexOf_inj m1 m2).1 h))

/-- C18: for every non-empty series whose stage ids index a taxonomy of
pairwise distinct labels, any two consecutive runs returned by
`createBarSources` have different `stageText`, and also different `stage`
(display-order index) when the display order is a permutation of the labels. -/
theorem createBarSources_adjacent_runs_differ (data : List Row) (states statesOrder : List String)
    (hne : data ≠ []) (hnodup : states.Nodup)
    (hvalid : ∀ row ∈ data, 0 ≤ row.sleep_stage ∧ row.sleep_stage < states.length) :
    ∃ runs, createBarSources data states statesOrder = some runs ∧
      List.Chain' (fun a b : Run => a.stageText ≠ b.stageText) runs ∧
      (statesOrder.Perm states → List.Chain' (fun a b : Run => a.stage ≠ b.stage) runs) := by
  match data, hne with
  | row0 :: rest, _ =>
    have key := emitted_stageText states statesOrder (rest.length + 1) (row0 :: rest) 0
      row0.timestamp 0 0 (by simp) (by simp)
    have hst := emitted_stage_eq states statesOrder (rest.length + 1) (row0 :: rest) 0
      row0.timestamp 0 0
    have hpos : (0 : Int) < states.length := by
      have := hvalid row0 (List.mem_cons_self _ _)
      omega
    have hP : ∀ c ∈ (0 : Int) :: ((row0 :: rest).map Row.sleep_stage).dropLast,
        0 ≤ c ∧ c < states.length := by
      intro c hc
      rcases List.mem_cons.1 hc with rfl | hmem
      · exact ⟨le_refl _, hpos⟩
      · obtain ⟨row, hrow, rfl⟩ := List.mem_map.1 (List.mem_of_mem_dropLast hmem)
        exact hvalid row hrow
    have hchain := runStages_chain (fun c => 0 ≤ c ∧ c < states.length) _ hP
    refine ⟨_, createBarSources_eq_emitted row0 rest states statesOrder, ?_, ?_⟩
    · have h1 : List.Chain' (· ≠ ·)
          ((emitted states statesOrder (rest.length + 1) (row0 :: rest) 0
            row0.timestamp 0 0).map Run.stageText) := by
        rw [key, List.chain'_map]
        exact hchain.imp (fun a b h => jsGet_ne_of_ne states hnodup a b h.2.1 h.2.2 h.1)
      exact (List.chain'_map _).1 h1
    · intro hperm
      have hmap : (emitted states statesOrder (rest.length + 1) (row0 :: rest) 0
            row0.timestamp 0 0).map Run.stage =
          (runStages (0 :: ((row0 :: rest).map Row.sleep_stage).dropLast)).map
            (fun c => jsIndexOf statesOrder (jsGet states c)) := by
        have : (emitted states statesOrder (rest.length + 1) (row0 :: rest) 0
            row0.timestamp 0 0).map Run.stage =
            ((emitted states statesOrder (rest.length + 1) (row0 :: rest) 0
              row0.timestamp 0 0).map Run.stageText).map (jsIndexOf statesOrder) := by
          rw [List.map_map]
          exact List.map_congr_left (fun run hrun => hst run hrun)
        rw [this, key, List.map_map]
        rfl
      have h1 : List.Chain' (· ≠ ·)
          ((emitted states statesOrder (rest.length + 1) (row0 :: rest) 0
            row0.timestamp 0 0).map Run.stage) := by
        rw [hmap, List.chain'_map]
        exact hchain.imp (fun a b h =>
          jsIndexOf_jsGet_ne_of_ne states statesOrder hnodup hperm a b h.2.1 h.2.2 h.1)
      exact (List.chain'_map _).1 h1

/-- Witness for C18 on the worked example. -/
theorem createBarSources_adjacent_runs_differ_witness :
    exampleSeries ≠ [] ∧ exampleStates.Nodup ∧
    (∀ row ∈ exampleSeries, 0 ≤ row.sleep_stage ∧ row.sleep_stage < exampleStates.length) ∧
    ∃ runs, createBarSources exampleSeries exampleStates exampleOrder = some runs ∧
      List.Chain' (fun a b : Run => a.stageText ≠ b.stageText) runs ∧
      (exampleOrder.Perm exampleStates →
        List.Chain' (fun a b : Run => a.stage ≠ b.stage) runs) :=
  ⟨by decide, by decide, by decide,
    createBarSources_adjacent_runs_differ exampleSeries exampleStates exampleOrder
      (by decide) (by decide) (by decide)⟩

/-! ## C19: the divisor of the portions -/

/-- C19: the divisor `data.length - 1` of `stagePortion` is zero if and only
if the series has exactly one sample (its single run then has the portion
`Infinity`); for every series of n ≥ 2 samples every run counts at least one
sample, its portion is the finite number count / (n − 1) · 100, and that
number is strictly positive. -/
theorem createBarSources_portion_positive (data : List Row) (states statesOrder : List String) (hne : data ≠ []) :
    ∃ runs, createBarSources data states statesOrder = some runs ∧
      (data.length - 1 = 0 ↔ data.length = 1) ∧
      (data.length = 1 → ∀ run ∈ runs, run.stagePortion = JsNum.posInf) ∧
      (2 ≤ data.length → ∀ run ∈ runs, ∃ count : Nat, 1 ≤ count ∧
        run.stagePortion =
          JsNum.num ((count : ℚ) / ((data.length - 1 : Nat) : ℚ) * 100) ∧
        0 < (count : ℚ) / ((data.length - 1 : Nat) : ℚ) * 100) := by
  match data, hne with
  | row0 :: rest, _ =>
    obtain ⟨cs, h1, -, h3⟩ := emitted_counts states statesOrder (rest.length + 1)
      (row0 :: rest) 0 row0.timestamp 0 0 (by simp) (by simp)
    have hrun : ∀ run ∈ emitted states statesOrder (rest.length + 1) (row0 :: rest) 0
        row0.timestamp 0 0, ∃ c : Nat, 1 ≤ c ∧
          run.stagePortion = ((JsNum.num (c : ℚ)).divNat (rest.length + 1 - 1)).mul100 := by
      intro run hrun
      have hm : run.stagePortion ∈ (emitted states statesOrder (rest.length + 1)
          (row0 :: rest) 0 row0.timestamp 0 0).map Run.stagePortion :=
        List.mem_map.2 ⟨run, hrun, rfl⟩
      rw [h1] at hm
      obtain ⟨c, hc, he⟩ := List.mem_map.1 hm
      exact ⟨c, h3 c hc, he.symm⟩
    refine ⟨_, createBarSources_eq_emitted row0 rest states statesOrder, ?_, ?_, ?_⟩
    · simp
    · intro hlen run hmem
      obtain ⟨c, hc, he⟩ := hrun run hmem
      have hr : rest.length = 0 := by simpa using hlen
      have hcq : (c : ℚ) ≠ 0 := by
        have : 0 < c := hc
        exact_mod_cast this.ne'
      have hcpos : (0 : ℚ) < c := by exact_mod_cast hc
      rw [he]
      simp [JsNum.divNat, JsNum.mul100, hr, hcq, hcpos]
    · intro hlen run hmem
      obtain ⟨c, hc, he⟩ := hrun run hmem
      have hr : rest.length ≠ 0 := by simp at hlen; omega
      have hrpos : (0 : ℚ) < rest.length := by exact_mod_cast Nat.pos_of_ne_zero hr
      have hcpos : (0 : ℚ) < c := by exact_mod_cast hc
      refine ⟨c, hc, ?_, ?_⟩
      · rw [he]
        simp [JsNum.divNat, JsNum.mul100, hr]
      · simp only [List.length_cons, Nat.add_sub_cancel]
        positivity


/-- Witness for C19 on the worked example. -/
theorem createBarSources_portion_positive_witness :
    exampleSeries ≠ [] ∧
    ∃ runs, createBarSources exampleSeries exampleStates exampleOrder = some runs ∧
      (exampleSeries.length - 1 = 0 ↔ exampleSeries.length = 1) ∧
      (exampleSeries.length = 1 → ∀ run ∈ runs, run.stagePortion = JsNum.posInf) ∧
      (2 ≤ exampleSeries.length → ∀ run ∈ runs, ∃ count : Nat, 1 ≤ count ∧
        run.stagePortion =
          JsNum.num ((count : ℚ) / ((exampleSeries.length - 1 : Nat) : ℚ) * 100) ∧
        0 < (count : ℚ) / ((exampleSeries.length - 1 : Nat) : ℚ) * 100) :=
  ⟨by decide,
    createBarSources_portion_positive exampleSeries exampleStates exampleOrder (by decide)⟩

/-! ## C20: the proportions do not depend on the order of the samples -/

theorem incrementAt_of_neg (a : List (Option JsNum)) (k : Int) (hk : k < 0) :
    incrementAt a k = a := by
  simp [incrementAt, hk]

theorem incrementAt_length (a : List (Option JsNum)) (k : Int) (hk : 0 ≤ k) :
    (incrementAt a k).length = if k.toNat < a.length then a.length else k.toNat + 1 := by
  unfold incrementAt
  rw [if_neg (not_lt.2 hk)]
  by_cases h : k.toNat < a.length
  · rw [if_pos h, if_pos h, List.length_set]
  · rw [if_neg h, if_neg h]
    simp only [List.length_append, List.length_replicate, List.length_singleton]
    omega

theorem incrementAt_getElem? (a : List (Option JsNum)) (k : Int) (hk : 0 ≤ k) (i : Nat) :
    (incrementAt a k)[i]? =
      if i = k.toNat then some (some (cellBump a[i]?))
      else if i < a.length then a[i]?
      else if i < k.toNat then some none
      else none := by
  unfold incrementAt
  rw [if_neg (not_lt.2 hk)]
  by_cases h : k.toNat < a.length
  · rw [if_pos h, List.getElem?_set]
    by_cases hi : i = k.toNat
    · subst hi
      rw [if_pos rfl, if_pos h, if_pos rfl]
      rcases hc : a[k.toNat]? with _ | _ | v <;> simp [cellBump]
    · rw [if_neg (fun e => hi e.symm), if_neg hi]
      by_cases hl : i < a.length
      · rw [if_pos hl]
      · rw [if_neg hl, if_neg (by omega), List.getElem?_eq_none (by omega)]
  · rw [if_neg h]
    by_cases hi : i = k.toNat
    · subst hi
      have hnone : a[k.toNat]? = none := List.getElem?_eq_none (by omega)
      have hz : k.toNat - (a.length + (k.toNat - a.length)) = 0 := by omega
      rw [if_pos rfl, hnone, List.getElem?_append_right (by simp; omega)]
      simp [cellBump, hz]
    · rw [if_neg hi]
      by_cases hl : i < a.length
      · rw [if_pos hl, List.append_assoc, List.getElem?_append_left hl]
      · rw [if_neg hl]
        by_cases hlt : i < k.toNat
        · rw [if_pos hlt, List.getElem?_append_left (by simp; omega),
            List.getElem?_append_right (by omega), List.getElem?_replicate, if_pos (by omega)]
        · rw [if_neg hlt, List.getElem?_eq_none (by simp; omega)]

theorem incrementAt_comm (a : List (Option JsNum)) (j k : Int) :
    incrementAt (incrementAt a j) k = incrementAt (incrementAt a k) j := by
  by_cases hj : j < 0
  · rw [incrementAt_of_neg a j hj, incrementAt_of_neg _ j hj]
  by_cases hk : k < 0
  · rw [incrementAt_of_neg a k hk, incrementAt_of_neg _ k hk]
  have hj0 : 0 ≤ j := not_lt.1 hj
  have hk0 : 0 ≤ k := not_lt.1 hk
  by_cases hjk : j = k
  · rw [hjk]
  have hne : j.toNat ≠ k.toNat := by omega
  apply List.ext_getElem?
  intro i
  rw [incrementAt_getElem? (incrementAt a j) k hk0, incrementAt_getElem? (incrementAt a k) j hj0,
    incrementAt_length a j hj0, incrementAt_length a k hk0]
  simp only [incrementAt_getElem? a j hj0, incrementAt_getElem? a k hk0]
  have hne' : k.toNat ≠ j.toNat := fun e => hne e.symm
  have hnone : ¬ i < a.length → a[i]? = none := fun h => List.getElem?_eq_none (by omega)
  have hnk : ¬ k.toNat < a.length → a[k.toNat]? = none :=
    fun h => List.getElem?_eq_none (by omega)
  have hnj : ¬ j.toNat < a.length → a[j.toNat]? = none :=
    fun h => List.getElem?_eq_none (by omega)
  by_cases h1 : i = k.toNat <;> by_cases h2 : i = j.toNat <;> by_cases hl : i < a.length <;>
    by_cases hlk : i < k.toNat <;> by_cases hlj : i < j.toNat <;>
    by_cases hkl : k.toNat < a.length <;> by_cases hjl : j.toNat < a.length <;>
    first
    | omega
    | (simp [h1, h2, hl, hlk, hlj, hkl, hjl, hnone, hnk, hnj, hne, hne', cellBump]; done)
    | (simp [h1, h2, hl, hlk, hlj, hkl, hjl, hnone, hnk, hnj, hne, hne', cellBump];
        (try split_ifs) <;> (try intros) <;> first | rfl | omega)

theorem calculateStagesPortion_perm_stages (data data' : List Row)
    (states statesOrder : List String)
    (h : (data.map Row.sleep_stage).Perm (data'.map Row.sleep_stage)) :
    calculateStagesPortion data states statesOrder =
      calculateStagesPortion data' states statesOrder := by
  have hfold : ∀ (d : List Row) (init : List (Option JsNum)),
      d.foldl (fun a row => incrementAt a (stageSlot states statesOrder row)) init =
        (d.map Row.sleep_stage).foldl
          (fun a s => incrementAt a (jsIndexOf statesOrder (jsGet states s))) init := by
    intro d
    induction d with
    | nil => intro init; rfl
    | cons row rest ih => intro init; simp only [List.foldl_cons, List.map_cons, ih]; rfl
  have hlen : data.length = data'.length := by
    simpa using h.length_eq
  unfold calculateStagesPortion
  simp only [hfold, hlen]
  exact congrArg _ (@List.Perm.foldl_eq' _ _
    (fun a s => incrementAt a (jsIndexOf statesOrder (jsGet states s))) _ _ h
    (fun x _ y _ z => incrementAt_comm z _ _) _)

/-- C20: `calculateStagesPortion` depends only on the multiset of stage ids:
for every series and every permutation of its samples (same taxonomy and
display order) the two vectors returned are equal, and so are they for any
two series whose stage ids are permutations of each other, whatever the
timestamps. -/
theorem calculateStagesPortion_perm (data data' : List Row) (states statesOrder : List String) :
    (data.Perm data' →
      calculateStagesPortion data states statesOrder =
        calculateStagesPortion data' states statesOrder) ∧
    ((data.map Row.sleep_stage).Perm (data'.map Row.sleep_stage) →
      calculateStagesPortion data states statesOrder =
        calculateStagesPortion data' states statesOrder) :=
  ⟨fun h => calculateStagesPortion_perm_stages data data' states statesOrder (h.map _),
    calculateStagesPortion_perm_stages data data' states statesOrder⟩


/-- Witness for C20: the worked example and its reversal. -/
theorem calculateStagesPortion_perm_witness :
    exampleSeries.Perm exampleSeries.reverse ∧
    calculateStagesPortion exampleSeries exampleStates exampleOrder =
      calculateStagesPortion exampleSeries.reverse exampleStates exampleOrder :=
  ⟨(List.reverse_perm exampleSeries).symm,
    (calculateStagesPortion_perm exampleSeries exampleSeries.reverse exampleStates
      exampleOrder).1 (List.reverse_perm exampleSeries).symm⟩

end Polydodo
